import Mathlib

/-!
Verification of the `sqlite_object` container library.

The three adapters (`SqliteList`, `SqliteDict`, `SqliteSet`) from
`sqlite_object/_sqlite_list.py`, `_sqlite_dict.py`, `_sqlite_set.py` are
shallowly embedded here.  Each SQLite table is modelled as a Lean list of
rows, kept in `list_index` order for the sequence adapter (matching the
physical rowid order SQLite keeps for an INTEGER PRIMARY KEY table) and in
insertion/scan order for the map and set adapters.  SQL aggregate and point
queries (`COUNT`, `MIN`, `MAX`, `SELECT ... WHERE`) are modelled as
recursive functions over the row list.  Python exceptions are modelled with
the `Err` type, following the spec's error taxonomy plus the concrete
accident classes the source can actually raise (`NameError` from the
`cusror` typo, `sqlite3.OperationalError` from a statement naming a missing
table, `TypeError` from subscripting the `None` returned by `fetchone`).

The storage engine itself (`_sqlite_object.py`) is not part of the sources;
its commit-batching hook is modelled from the spec (see `record_write`).
-/

set_option autoImplicit false

/-- Modelled from the spec: the storage engine (`_sqlite_object.py`, absent
from the sources) keeps a commit-batch counter and threshold.  Only the
counter/commit bookkeeping is modelled; the database connection itself is
carried by each adapter. -/
structure Engine where
  commitEvery : Nat
  writeCount : Nat
  commits : Nat
deriving Repr, DecidableEq

/-- Modelled from the spec: `record_write()` is "called after every mutating
statement; increments an internal counter and, once the counter reaches the
configured batching threshold (`commit_every`; a value of 0 means commit
after every mutation), issues a durability commit and resets the counter." -/
def record_write (e : Engine) : Engine :=
  let c := e.writeCount + 1
  if e.commitEvery ≤ c then
    { e with writeCount := 0, commits := e.commits + 1 }
  else
    { e with writeCount := c }

/-- A direct `self._db.commit()` call (used inside the sequence pops'
explicit transaction): a durability commit that does not touch the
batch counter. -/
def db_commit (e : Engine) : Engine :=
  { e with commits := e.commits + 1 }

/-- Error classes, following the spec's taxonomy (section 7) plus the
accident classes the source can raise:
`keyNotFound` = Python `KeyError` on an absent map/set entry;
`indexOutOfRange` = `IndexError("Sequence index out of range.")`;
`emptyContainer` = the `KeyError`/`IndexError` raised by pop-style
operations on an empty container;
`nameError` = Python `NameError` from evaluating the undefined name
`cusror` in the empty-list branch of `pop_first`/`pop_last`;
`noSuchTable` = `sqlite3.OperationalError: no such table`, raised when a
statement names a table absent from the database file;
`noneSubscript` = `TypeError` from `cursor.fetchone()[0]` when the query
returned no row. -/
inductive Err where
  | keyNotFound
  | indexOutOfRange
  | emptyContainer
  | nameError
  | noSuchTable
  | noneSubscript
deriving Repr, DecidableEq

/-- A row of the sequence table: `(list_index INTEGER PRIMARY KEY, value TEXT)`. -/
abbrev Row := Int × String

/-- A sequence table: its rows in `list_index` (= rowid) order. -/
abbrev Table := List Row

/-- SQL `SELECT MIN(list_index) FROM t`: `NULL` (none) on an empty table. -/
def sqlMin : Table → Option Int
  | [] => none
  | r :: rs =>
    some (match sqlMin rs with
          | none => r.1
          | some m => min r.1 m)

/-- SQL `SELECT MAX(list_index) FROM t`: `NULL` (none) on an empty table. -/
def sqlMax : Table → Option Int
  | [] => none
  | r :: rs =>
    some (match sqlMax rs with
          | none => r.1
          | some m => max r.1 m)

/-- SQL `SELECT value FROM t WHERE list_index = k` (at most one row: the
column is the primary key). -/
def selectValue : Table → Int → Option String
  | [], _ => none
  | r :: rs, k => if r.1 = k then some r.2 else selectValue rs k

/-- Insert (or, when the key is already present, replace) a row, keeping the
table in `list_index` order.  `INSERT` statements in the source only ever
supply keys that are fresh (`MAX+1` / `MIN-1`), for which this coincides
with plain insertion; `REPLACE INTO` is exactly this function. -/
def tableUpsert : Table → Int → String → Table
  | [], k, v => [(k, v)]
  | r :: rs, k, v =>
    if k < r.1 then (k, v) :: r :: rs
    else if k = r.1 then (k, v) :: rs
    else r :: tableUpsert rs k v

/-- SQL `DELETE FROM t WHERE list_index = k`. -/
def tableDelete (t : Table) (k : Int) : Table :=
  t.filter (fun r => r.1 != k)

/-- SQLite's rowid auto-assignment: inserting `NULL` into an INTEGER
PRIMARY KEY column assigns one more than the largest rowid in use, or 1 for
an empty table.  The source only reaches this on an empty table (where the
`MAX(list_index) + 1` / `MIN(list_index) - 1` key expression is `NULL`). -/
def autoKey (t : Table) : Int :=
  match sqlMax t with
  | none => 1
  | some m => max m 0 + 1

/-- The reachable-state invariant of the sequence table: starting from key
`m`, the stored keys are exactly `m, m+1, m+2, ...` (appends insert at
`MAX+1`, prepends at `MIN-1`, pops delete at the ends, so keys stay
contiguous). -/
def keysFrom : Int → Table → Bool
  | _, [] => true
  | m, r :: rs => (r.1 == m) && keysFrom (m + 1) rs

/-- The first stored key (0 for an empty table; only used to state the
invariant). -/
def headKey : Table → Int
  | [] => 0
  | r :: _ => r.1

/-- The database file: the tables it holds, by name.  (The sequence
adapter's `__setitem__` addresses a table other than its own, so the model
must keep the whole file, not just one table.) -/
abbrev Db := List (String × Table)

/-- Look a table up by name (none: the statement would fail with
`no such table`). -/
def dbLookup : Db → String → Option Table
  | [], _ => none
  | e :: es, n => if e.1 = n then some e.2 else dbLookup es n

/-- Overwrite the contents of an existing table; a name not present in the
file is left absent (SQL DML statements never create tables). -/
def dbUpdate : Db → String → Table → Db
  | [], _, _ => []
  | e :: es, n, t => if e.1 = n then (n, t) :: dbUpdate es n t else e :: dbUpdate es n t

/-- The embedded `SqliteList` (`_sqlite_list.py`): its coder/decoder pair,
its table name (the `name`-derived `table_name_fmt` result, or the legacy
default `list`), the database file, and the engine bookkeeping. -/
structure SqliteList (α : Type) where
  coder : α → String
  decoder : String → α
  tableName : String
  db : Db
  engine : Engine

/-- The adapter's own table (guaranteed present by the constructor's
`CREATE TABLE IF NOT EXISTS`). -/
def ownTable {α : Type} (L : SqliteList α) : Table :=
  (dbLookup L.db L.tableName).getD []

/-- `SqliteList._getlen` / `__len__`: `SELECT COUNT(*)`. -/
def listLen {α : Type} (L : SqliteList α) : Nat :=
  (ownTable L).length

/-- The point query shared by `_getitem` and `__getitem__`:
`SELECT value FROM t WHERE list_index = (SELECT MIN(list_index) FROM t) + k`.
On an empty table the subquery is `NULL` and the comparison matches no row. -/
def selectAtMinPlus (t : Table) (k : Int) : Option String :=
  match sqlMin t with
  | none => none
  | some m => selectValue t (m + k)

/-- The tail of `SqliteList.__getitem__` for a resolved in-range index:
execute the point query, then `self._decoder(cursor.fetchone()[0])`
(`fetchone` returning no row would make the subscript a `TypeError`). -/
def listSelect {α : Type} (L : SqliteList α) (k : Int) : Except Err α :=
  match selectAtMinPlus (ownTable L) k with
  | some s => .ok (L.decoder s)
  | none => .error .noneSubscript

/-- `SqliteList.__getitem__` with an integer key: reject `key >= length`,
resolve a negative key as `length + key` re-checking both bounds, then run
the point query at the resolved offset from `MIN(list_index)`. -/
def listGet {α : Type} (L : SqliteList α) (key : Int) : Except Err α :=
  let len : Int := (listLen L : Int)
  if key ≥ len then .error .indexOutOfRange
  else if key < 0 then
    let k := len + key
    if k ≥ len then .error .indexOutOfRange
    else if k < 0 then .error .indexOutOfRange
    else listSelect L k
  else listSelect L key

/-- The REPLACE statement of `SqliteList.__setitem__`.  The statement's
target table is the hard-coded name `list` (only the `MIN` subquery is
formatted with the adapter's own table name):
`REPLACE INTO list (list_index, value) VALUES ((SELECT MIN(list_index) FROM "{table_name}") + ?, ?)`.
When the own table is empty the computed key is `NULL` and SQLite
auto-assigns a rowid (branch unreachable: the caller has already checked
`0 <= key < len`). -/
def replaceAtMinPlus (target own : Table) (k : Int) (v : String) : Table :=
  match sqlMin own with
  | some m => tableUpsert target (m + k) v
  | none => tableUpsert target (autoKey target) v

/-- `SqliteList.__setitem__`: resolve a negative key (re-checking only the
lower bound), reject `key >= len(self)`, then issue the REPLACE into the
hard-coded table `list` and call `self._do_write()`. -/
def listSet {α : Type} (L : SqliteList α) (key : Int) (v : α) :
    Except Err Unit × SqliteList α :=
  let len : Int := (listLen L : Int)
  let k := if key < 0 then len + key else key
  if key < 0 ∧ k < 0 then (.error .indexOutOfRange, L)
  else if k ≥ len then (.error .indexOutOfRange, L)
  else
    match dbLookup L.db "list" with
    | none => (.error .noSuchTable, L)
    | some tl =>
      (.ok (),
       { L with db := dbUpdate L.db "list" (replaceAtMinPlus tl (ownTable L) k (L.coder v)),
                engine := record_write L.engine })

/-- The key expression of `SqliteList.append`:
`(SELECT MAX(list_index) FROM t) + 1`, which is `NULL` on an empty table,
making SQLite auto-assign the rowid. -/
def appendKey (t : Table) : Int :=
  match sqlMax t with
  | some m => m + 1
  | none => autoKey t

/-- The key expression of `SqliteList.prepend`:
`(SELECT MIN(list_index) FROM t) - 1`, `NULL` (hence rowid auto-assignment)
on an empty table. -/
def prependKey (t : Table) : Int :=
  match sqlMin t with
  | some m => m - 1
  | none => autoKey t

/-- `SqliteList.append`:
`INSERT INTO t (list_index, value) VALUES ((SELECT MAX(list_index) FROM t) + 1, ?)`,
then `self._do_write()`. -/
def listAppend {α : Type} (L : SqliteList α) (v : α) : SqliteList α :=
  { L with
      db := dbUpdate L.db L.tableName
              (tableUpsert (ownTable L) (appendKey (ownTable L)) (L.coder v)),
      engine := record_write L.engine }

/-- `SqliteList.prepend`: symmetric, at `(SELECT MIN(list_index) FROM t) - 1`. -/
def listPrepend {α : Type} (L : SqliteList α) (v : α) : SqliteList α :=
  { L with
      db := dbUpdate L.db L.tableName
              (tableUpsert (ownTable L) (prependKey (ownTable L)) (L.coder v)),
      engine := record_write L.engine }

/-- `SqliteList.pop_last`: `BEGIN TRANSACTION`; if the table has fewer than
one row the source evaluates the undefined name `cusror`, so Python raises
`NameError` before the intended `IndexError("pop from empty list")` is ever
reached; otherwise read the value at `MAX(list_index)`, delete that row,
`self._db.commit()`, and `self._do_write()`. -/
def listPopLast {α : Type} (L : SqliteList α) : Except Err α × SqliteList α :=
  let t := ownTable L
  if t.length < 1 then (.error .nameError, L)
  else
    match sqlMax t with
    | none => (.error .noneSubscript, L)
    | some mx =>
      match selectValue t mx with
      | none => (.error .noneSubscript, L)
      | some s =>
        (.ok (L.decoder s),
         { L with db := dbUpdate L.db L.tableName (tableDelete t mx),
                  engine := record_write (db_commit L.engine) })

/-- `SqliteList.pop_first`: symmetric, at `MIN(list_index)`, with the same
`cusror` slip in the empty branch. -/
def listPopFirst {α : Type} (L : SqliteList α) : Except Err α × SqliteList α :=
  let t := ownTable L
  if t.length < 1 then (.error .nameError, L)
  else
    match sqlMin t with
    | none => (.error .noneSubscript, L)
    | some mn =>
      match selectValue t mn with
      | none => (.error .noneSubscript, L)
      | some s =>
        (.ok (L.decoder s),
         { L with db := dbUpdate L.db L.tableName (tableDelete t mn),
                  engine := record_write (db_commit L.engine) })

/-- `SqliteList.clear`: `DELETE FROM t` with no `self._do_write()` call. -/
def listClear {α : Type} (L : SqliteList α) : SqliteList α :=
  { L with db := dbUpdate L.db L.tableName [] }

/-- CPython's slice-bound adjustment (`PySlice_AdjustIndices`) for an
explicit integer bound against a sequence of length `n`. -/
def adjustIndex (n : Int) (step : Int) (i : Int) : Int :=
  if i < 0 then
    let j := i + n
    if j < 0 then (if step < 0 then -1 else 0) else j
  else if i ≥ n then (if step < 0 then n - 1 else n) else i

/-- The index list produced by `range(n)[start:stop:step]` for explicit
integer bounds (CPython's slice resolution; a zero step raises `ValueError`
in Python and is not exercised by any claim — it yields `[]` here). -/
def pySliceIndices (n : Nat) (start stop step : Int) : List Int :=
  if step = 0 then []
  else
    let s := adjustIndex n step start
    let e := adjustIndex n step stop
    let cnt : Nat :=
      if step > 0 then
        if s < e then ((e - s - 1) / step + 1).toNat else 0
      else
        if e < s then ((s - e - 1) / (-step) + 1).toNat else 0
    (List.range cnt).map (fun j => s + step * j)

/-- `SqliteList.__getitem__` with a slice key, composed with
`SqliteList._iterate`: read the length, resolve
`range(length)[start:stop:step]`, then yield `self[i]` (a fresh point
lookup through `__getitem__`) for each resolved `i` with `0 <= i < length`. -/
def listSliceGet {α : Type} (L : SqliteList α) (start stop step : Int) :
    List (Except Err α) :=
  let len := listLen L
  ((pySliceIndices len start stop step).filter
      (fun i => decide (0 ≤ i) && decide (i < (len : Int)))).map
    (fun i => listGet L i)

/-- Well-formedness of a list adapter state: its own table exists in the
database file and the stored keys are contiguous (the invariant every
reachable state satisfies). -/
def WFlist {α : Type} (L : SqliteList α) : Prop :=
  (dbLookup L.db L.tableName).isSome = true ∧
  keysFrom (headKey (ownTable L)) (ownTable L) = true

/-- A row of the map table: `(key TEXT PRIMARY KEY, value TEXT)`; the row
list is kept in scan (insertion) order. -/
abbrev DictTable := List (String × String)

/-- The embedded `SqliteDict` (`_sqlite_dict.py`).  Its table names are
formatted into every statement, so one table suffices in the model.  Keys
and values go through the same coder, so they share the value type. -/
structure SqliteDict (α : Type) where
  coder : α → String
  decoder : String → α
  table : DictTable
  engine : Engine

/-- SQL `SELECT value FROM t WHERE key = k` on the map table. -/
def dictLookup : DictTable → String → Option String
  | [], _ => none
  | r :: rs, k => if r.1 = k then some r.2 else dictLookup rs k

/-- SQL `REPLACE INTO t (key, value) VALUES (k, v)`: any row with that
primary key is deleted and the fresh row is inserted (taking a fresh rowid,
hence moving to the end of the scan order). -/
def dictReplace (t : DictTable) (k v : String) : DictTable :=
  t.filter (fun r => r.1 != k) ++ [(k, v)]

/-- `SqliteDict.__getitem__`: point lookup on the encoded key; an absent
key raises `KeyError("Mapping key not found in dict")`. -/
def dictGetitem {α : Type} (d : SqliteDict α) (k : α) : Except Err α :=
  match dictLookup d.table (d.coder k) with
  | some s => .ok (d.decoder s)
  | none => .error .keyNotFound

/-- `SqliteDict.__setitem__`: REPLACE, then `self._do_write()`. -/
def dictSetitem {α : Type} (d : SqliteDict α) (k v : α) : SqliteDict α :=
  { d with table := dictReplace d.table (d.coder k) (d.coder v),
           engine := record_write d.engine }

/-- `SqliteDict.__delitem__`: `DELETE FROM t WHERE key = ?` followed by
`self._do_write()`.  The statement never raises, whether or not a row with
that key exists. -/
def dictDelete {α : Type} (d : SqliteDict α) (k : α) :
    Except Err Unit × SqliteDict α :=
  (.ok (),
   { d with table := d.table.filter (fun r => r.1 != d.coder k),
            engine := record_write d.engine })

/-- `SqliteDict.pop(key, default)`: `val = self[key]` (which raises
`KeyError` on an absent key, before any mutation), then `del self[key]`,
then return `val`.  The `default` parameter is accepted but never used. -/
def dictPop {α : Type} (d : SqliteDict α) (k : α) (dflt : α) :
    Except Err α × SqliteDict α :=
  match dictGetitem d k with
  | .error e => (.error e, d)
  | .ok v => (.ok v, (dictDelete d k).2)

/-- `SqliteDict.popitem`: `SELECT key, value ... LIMIT 1`; an empty table
raises `KeyError("Dict has no more items to pop")`; otherwise the row is
decoded and removed via `del self[key]` (which itself calls
`self._do_write()`).  The trailing `self._do_write()` in the source sits
after the `return` and is unreachable. -/
def dictPopitem {α : Type} (d : SqliteDict α) :
    Except Err (α × α) × SqliteDict α :=
  match d.table.head? with
  | none => (.error .emptyContainer, d)
  | some r =>
    let k := d.decoder r.1
    (.ok (k, d.decoder r.2), (dictDelete d k).2)

/-- `SqliteDict.clear`: `DELETE FROM t` with no `self._do_write()` call. -/
def dictClear {α : Type} (d : SqliteDict α) : SqliteDict α :=
  { d with table := [] }

/-- The embedded `SqliteSet` (`_sqlite_set.py`): its table is
`(key TEXT PRIMARY KEY)`, modelled as the list of stored key texts in scan
(insertion) order. -/
structure SqliteSet (α : Type) where
  coder : α → String
  decoder : String → α
  table : List String
  engine : Engine

/-- `SqliteSet._has` / `__contains__`: existence check on the encoded key. -/
def setMem {α : Type} (s : SqliteSet α) (x : α) : Bool :=
  s.table.contains (s.coder x)

/-- `SqliteSet._add` via `add`: `INSERT OR IGNORE` (kept unchanged when the
primary key exists), then `self._do_write()`. -/
def setAdd {α : Type} (s : SqliteSet α) (x : α) : SqliteSet α :=
  let k := s.coder x
  { s with table := if s.table.contains k then s.table else s.table ++ [k],
           engine := record_write s.engine }

/-- `SqliteSet._discard` via `discard`: `DELETE FROM t WHERE key = ?`, then
`self._do_write()`; never raises. -/
def setDiscard {α : Type} (s : SqliteSet α) (x : α) : SqliteSet α :=
  { s with table := s.table.filter (fun k => k != s.coder x),
           engine := record_write s.engine }

/-- `SqliteSet._remove` via `remove`: check membership, delete when
present, raise `KeyError` otherwise (the raise's message formatting has its
own slip — a positional argument for a named placeholder — but the
surfacing exception is a `KeyError` either way); `self._do_write()` runs
only on the successful path. -/
def setRemove {α : Type} (s : SqliteSet α) (x : α) :
    Except Err Unit × SqliteSet α :=
  if s.table.contains (s.coder x) then
    (.ok (),
     { s with table := s.table.filter (fun k => k != s.coder x),
              engine := record_write s.engine })
  else (.error .keyNotFound, s)

/-- `SqliteSet.pop`: `SELECT key ... LIMIT 1`; an empty table raises
`KeyError("Tried to pop empty set_table")`; otherwise the row text is
decoded, `_discard` deletes at `self._coder(self._decoder(row[0]))`, the
decoded value is returned, and `self._do_write()` runs. -/
def setPop {α : Type} (s : SqliteSet α) : Except Err α × SqliteSet α :=
  match s.table.head? with
  | none => (.error .emptyContainer, s)
  | some k =>
    (.ok (s.decoder k),
     { s with table := s.table.filter (fun r => r != s.coder (s.decoder k)),
              engine := record_write s.engine })

/-- `SqliteSet.clear`: `DELETE FROM t` with no `self._do_write()` call. -/
def setClear {α : Type} (s : SqliteSet α) : SqliteSet α :=
  { s with table := [] }

/-! Concrete container states used by the closed theorems and witnesses. -/

/-- An engine with batching threshold 3 and an empty batch. -/
def engC : Engine := { commitEvery := 3, writeCount := 0, commits := 0 }

/-- A default-named (legacy `list` table) sequence holding two values. -/
def LCdef : SqliteList String :=
  { coder := id, decoder := id, tableName := "list",
    db := [("list", [(1, "a"), (2, "b")])], engine := engC }

/-- A sequence constructed with the logical name `foo`, so its table is
`foo_list_table` and no table called `list` exists in its file. -/
def LC1 : SqliteList String :=
  { coder := id, decoder := id, tableName := "foo_list_table",
    db := [("foo_list_table", [(1, "a")])], engine := engC }

/-- An empty default-named sequence. -/
def L0 : SqliteList String :=
  { coder := id, decoder := id, tableName := "list",
    db := [("list", [])], engine := engC }

/-- A concrete pluggable decoder for non-negative decimal integer text
(the JSON decoding of the stored values of Scenario E). -/
def parseInt (s : String) : Int :=
  s.data.foldl (fun a c => a * 10 + ((c.toNat : Int) - 48)) 0

/-- The sequence of Scenario E: logical contents `[10, 20, 30, 40, 50]`,
stored under a JSON-style integer coding. -/
def L5 : SqliteList Int :=
  { coder := fun n => toString n, decoder := parseInt,
    tableName := "list",
    db := [("list", [(1, "10"), (2, "20"), (3, "30"), (4, "40"), (5, "50")])],
    engine := engC }

/-- An empty map. -/
def dC : SqliteDict String :=
  { coder := id, decoder := id, table := [], engine := engC }

/-- A one-entry map. -/
def dC1 : SqliteDict String :=
  { coder := id, decoder := id, table := [("k", "v")], engine := engC }

/-- A one-member set. -/
def sC : SqliteSet String :=
  { coder := id, decoder := id, table := ["a"], engine := engC }

/-! Helper lemmas about the SQL-statement models. -/

lemma contains_filter_ne_self {β : Type} [BEq β] [LawfulBEq β]
    (l : List β) (c : β) : (l.filter (fun k => k != c)).contains c = false := by
  simp

lemma contains_filter_ne_of_ne {β : Type} [BEq β] [LawfulBEq β]
    (l : List β) (c y : β) (h : y ≠ c) :
    (l.filter (fun k => k != c)).contains y = l.contains y := by
  simp [List.mem_filter, h]

lemma contains_eq_false_of_not_mem {β : Type} [BEq β] [LawfulBEq β]
    (l : List β) (c : β) (h : c ∉ l) : l.contains c = false := by
  simpa using h

lemma filter_ne_of_not_mem {β : Type} [BEq β] [LawfulBEq β]
    (l : List β) (c : β) (h : c ∉ l) : l.filter (fun k => k != c) = l := by
  induction l with
  | nil => rfl
  | cons a l ih =>
    simp only [List.mem_cons, not_or] at h
    simp [List.filter_cons, Ne.symm h.1, ih h.2]

lemma dictLookup_filter_self (t : DictTable) (c : String) :
    dictLookup (t.filter (fun r => r.1 != c)) c = none := by
  induction t with
  | nil => rfl
  | cons r rs ih =>
    by_cases h : r.1 = c <;> simp [List.filter_cons, h, dictLookup, ih]

lemma dictLookup_filter_ne (t : DictTable) (c k2 : String) (h : k2 ≠ c) :
    dictLookup (t.filter (fun r => r.1 != c)) k2 = dictLookup t k2 := by
  induction t with
  | nil => rfl
  | cons r rs ih =>
    by_cases hr : r.1 = c
    · simp [List.filter_cons, hr, dictLookup, ih, Ne.symm h]
    · by_cases hk : r.1 = k2 <;> simp [List.filter_cons, hr, dictLookup, hk, ih, h]

/-! Lemmas about the contiguous-keys invariant of the sequence table. -/

lemma keysFrom_bounds (t : Table) (m : Int) (h : keysFrom m t = true) :
    ∀ r ∈ t, m ≤ r.1 ∧ r.1 < m + (t.length : Int) := by
  induction t generalizing m with
  | nil => intro r hr; cases hr
  | cons a t ih =>
    simp only [keysFrom, Bool.and_eq_true, beq_iff_eq] at h
    obtain ⟨h1, h2⟩ := h
    intro r hr
    rcases List.mem_cons.mp hr with rfl | hr'
    · push_cast [List.length_cons]
      omega
    · have := ih (m + 1) h2 r hr'
      push_cast [List.length_cons]
      push_cast at this
      omega

lemma keysFrom_sqlMin (t : Table) (m : Int) (h : keysFrom m t = true)
    (hne : t ≠ []) : sqlMin t = some m := by
  induction t generalizing m with
  | nil => exact absurd rfl hne
  | cons a t ih =>
    simp only [keysFrom, Bool.and_eq_true, beq_iff_eq] at h
    cases t with
    | nil => simp [sqlMin, h.1]
    | cons b t2 =>
      have hmin := ih (m + 1) h.2 (by simp)
      rw [sqlMin, hmin, h.1]
      simp [min_eq_left (by omega : m ≤ m + 1)]

lemma sqlMax_cons_some (r : Row) (rs : Table) (m : Int) (h : sqlMax rs = some m) :
    sqlMax (r :: rs) = some (max r.1 m) := by
  have e : sqlMax (r :: rs)
      = some (match sqlMax rs with
              | none => r.1
              | some m2 => max r.1 m2) := rfl
  rw [e, h]

lemma keysFrom_sqlMax (t : Table) (m : Int) (h : keysFrom m t = true)
    (hne : t ≠ []) : sqlMax t = some (m + (t.length : Int) - 1) := by
  induction t generalizing m with
  | nil => exact absurd rfl hne
  | cons a t ih =>
    simp only [keysFrom, Bool.and_eq_true, beq_iff_eq] at h
    cases t with
    | nil => simp [sqlMax, h.1]
    | cons b t2 =>
      have hmax := ih (m + 1) h.2 (by simp)
      rw [sqlMax_cons_some a (b :: t2) _ hmax, h.1,
          max_eq_right (by push_cast [List.length_cons]; omega)]
      congr 1
      push_cast [List.length_cons]
      ring

lemma keysFrom_selectValue (t : Table) (m : Int) (h : keysFrom m t = true)
    (i : Nat) (hi : i < t.length) :
    selectValue t (m + (i : Int)) = t[i]?.map Prod.snd := by
  induction t generalizing m i with
  | nil => cases hi
  | cons a t ih =>
    simp only [keysFrom, Bool.and_eq_true, beq_iff_eq] at h
    cases i with
    | zero => simp [selectValue, h.1]
    | succ n =>
      have hlt : n < t.length := Nat.lt_of_succ_lt_succ hi
      have hne : ¬ (a.1 = m + ((n + 1 : Nat) : Int)) := by
        rw [h.1]
        push_cast
        omega
      have harg : m + ((n + 1 : Nat) : Int) = (m + 1) + (n : Int) := by
        push_cast
        ring
      rw [selectValue, if_neg hne, harg, ih (m + 1) h.2 n hlt]
      simp

lemma keysFrom_snoc (t : Table) (m k : Int) (v : String)
    (h : keysFrom m t = true) (hk : k = m + (t.length : Int)) :
    keysFrom m (t ++ [(k, v)]) = true := by
  induction t generalizing m with
  | nil =>
    simp only [List.length_nil, Int.ofNat_zero, add_zero] at hk
    simp [keysFrom, hk]
  | cons a t ih =>
    simp only [keysFrom, Bool.and_eq_true, beq_iff_eq] at h ⊢
    refine ⟨h.1, ?_⟩
    exact ih (m + 1) h.2 (by rw [hk]; push_cast [List.length_cons]; ring)

lemma keysFrom_delete_max (t : Table) (m : Int) (h : keysFrom m t = true) :
    tableDelete t (m + (t.length : Int) - 1) = t.dropLast := by
  induction t generalizing m with
  | nil => rfl
  | cons a t ih =>
    simp only [keysFrom, Bool.and_eq_true, beq_iff_eq] at h
    cases t with
    | nil =>
      have harg : m + (([a] : Table).length : Int) - 1 = m := by
        push_cast [List.length_singleton]
        ring
      rw [harg]
      simp [tableDelete, List.filter_cons, h.1]
    | cons b t2 =>
      have hne : (a.1 != m + (((a :: b :: t2) : Table).length : Int) - 1) = true := by
        rw [bne_iff_ne, h.1]
        push_cast [List.length_cons]
        omega
      have harg : m + (((a :: b :: t2) : Table).length : Int) - 1
          = (m + 1) + (((b :: t2) : Table).length : Int) - 1 := by
        push_cast [List.length_cons]
        ring
      rw [tableDelete, List.filter_cons, hne]
      rw [show ((a :: b :: t2 : Table).dropLast) = a :: (b :: t2 : Table).dropLast from rfl]
      rw [harg]
      exact congrArg (a :: ·) (ih (m + 1) h.2)

lemma keysFrom_delete_min (t : Table) (m : Int) (h : keysFrom m t = true) :
    tableDelete t m = t.tail := by
  cases t with
  | nil => rfl
  | cons a t =>
    simp only [keysFrom, Bool.and_eq_true, beq_iff_eq] at h
    have hall : ∀ r ∈ t, (r.1 != m) = true := by
      intro r hr
      have := keysFrom_bounds t (m + 1) h.2 r hr
      rw [bne_iff_ne]
      omega
    rw [tableDelete, List.filter_cons]
    simp only [h.1, bne_self_eq_false]
    exact List.filter_eq_self.mpr hall

lemma dbLookup_update_self (db : Db) (n : String) (t : Table)
    (h : (dbLookup db n).isSome = true) :
    dbLookup (dbUpdate db n t) n = some t := by
  induction db with
  | nil => simp [dbLookup] at h
  | cons e es ih =>
    by_cases he : e.1 = n
    · simp [dbUpdate, he, dbLookup]
    · simp only [dbLookup, if_neg he] at h
      simp [dbUpdate, he, dbLookup, ih h]

lemma tableUpsert_gt (t : Table) (k : Int) (v : String)
    (h : ∀ r ∈ t, r.1 < k) : tableUpsert t k v = t ++ [(k, v)] := by
  induction t with
  | nil => rfl
  | cons a t ih =>
    have ha := h a (List.mem_cons_self a t)
    rw [tableUpsert, if_neg (by omega), if_neg (by omega)]
    rw [ih (fun r hr => h r (List.mem_cons_of_mem a hr))]
    rfl

lemma tableUpsert_lt (t : Table) (k : Int) (v : String)
    (h : ∀ r ∈ t, k < r.1) : tableUpsert t k v = (k, v) :: t := by
  cases t with
  | nil => rfl
  | cons a t =>
    rw [tableUpsert, if_pos (h a (List.mem_cons_self a t))]

lemma ownTable_set {α : Type} (L : SqliteList α) (t2 : Table) (eng : Engine)
    (h : (dbLookup L.db L.tableName).isSome = true) :
    ownTable { L with db := dbUpdate L.db L.tableName t2, engine := eng } = t2 := by
  unfold ownTable
  simp [dbLookup_update_self L.db L.tableName t2 h]

lemma appendKey_eq (t : Table) (m : Int) (h : keysFrom m t = true) (hne : t ≠ []) :
    appendKey t = m + (t.length : Int) := by
  unfold appendKey
  rw [keysFrom_sqlMax t m h hne]
  show m + (t.length : Int) - 1 + 1 = m + (t.length : Int)
  ring

lemma prependKey_eq (t : Table) (m : Int) (h : keysFrom m t = true) (hne : t ≠ []) :
    prependKey t = m - 1 := by
  unfold prependKey
  rw [keysFrom_sqlMin t m h hne]

lemma selectAtMinPlus_some (t : Table) (m k : Int) (h : sqlMin t = some m) :
    selectAtMinPlus t k = selectValue t (m + k) := by
  unfold selectAtMinPlus
  rw [h]

lemma keysFrom_cons_pred (t : Table) (m : Int) (v : String)
    (h : keysFrom m t = true) :
    keysFrom (m - 1) ((m - 1, v) :: t) = true := by
  simp only [keysFrom, Bool.and_eq_true, beq_iff_eq]
  exact ⟨trivial, by rwa [sub_add_cancel]⟩

/-- Evaluate an in-range non-negative `listGet` down to the stored row text. -/
lemma listGet_nat {α : Type} (L : SqliteList α) (m : Int) (i : Nat) (s : String)
    (hkf : keysFrom m (ownTable L) = true) (hi : i < listLen L)
    (hs : (ownTable L)[i]?.map Prod.snd = some s) :
    listGet L (i : Int) = .ok (L.decoder s) := by
  have hne : ownTable L ≠ [] := by
    intro h
    unfold listLen at hi
    rw [h] at hi
    simp at hi
  have hmin := keysFrom_sqlMin (ownTable L) m hkf hne
  have hsel := keysFrom_selectValue (ownTable L) m hkf i hi
  simp only [listGet]
  rw [if_neg (by omega : ¬ ((i : Int) ≥ (listLen L : Int))),
      if_neg (by omega : ¬ ((i : Int) < 0))]
  simp only [listSelect]
  rw [selectAtMinPlus_some (ownTable L) m (i : Int) hmin, hsel, hs]

lemma listAppend_table {α : Type} (L : SqliteList α) (v : α) (hwf : WFlist L) :
    ownTable (listAppend L v) = ownTable L ++ [(appendKey (ownTable L), L.coder v)] := by
  have e : listAppend L v = { L with
      db := dbUpdate L.db L.tableName
              (tableUpsert (ownTable L) (appendKey (ownTable L)) (L.coder v)),
      engine := record_write L.engine } := rfl
  rw [e, ownTable_set L _ _ hwf.1]
  by_cases h0 : ownTable L = []
  · rw [h0]
    rfl
  · refine tableUpsert_gt _ _ _ (fun r hr => ?_)
    have hb := keysFrom_bounds (ownTable L) (headKey (ownTable L)) hwf.2 r hr
    rw [appendKey_eq (ownTable L) (headKey (ownTable L)) hwf.2 h0]
    omega

lemma listPrepend_table {α : Type} (L : SqliteList α) (v : α) (hwf : WFlist L) :
    ownTable (listPrepend L v) = (prependKey (ownTable L), L.coder v) :: ownTable L := by
  have e : listPrepend L v = { L with
      db := dbUpdate L.db L.tableName
              (tableUpsert (ownTable L) (prependKey (ownTable L)) (L.coder v)),
      engine := record_write L.engine } := rfl
  rw [e, ownTable_set L _ _ hwf.1]
  refine tableUpsert_lt _ _ _ (fun r hr => ?_)
  have hb := keysFrom_bounds (ownTable L) (headKey (ownTable L)) hwf.2 r hr
  have hne : ownTable L ≠ [] := by
    intro hh
    rw [hh] at hr
    cases hr
  rw [prependKey_eq (ownTable L) (headKey (ownTable L)) hwf.2 hne]
  omega

lemma listPopLast_spec {α : Type} (L : SqliteList α) (hwf : WFlist L)
    (h0 : ownTable L ≠ []) :
    (listPopLast L).1.isOk = true ∧ listLen (listPopLast L).2 = listLen L - 1 := by
  have hkf : keysFrom (headKey (ownTable L)) (ownTable L) = true := hwf.2
  have hmax := keysFrom_sqlMax (ownTable L) (headKey (ownTable L)) hkf h0
  have hlen1 : 1 ≤ (ownTable L).length := List.length_pos.mpr h0
  have hi : (ownTable L).length - 1 < (ownTable L).length := by omega
  have hsel := keysFrom_selectValue (ownTable L) (headKey (ownTable L)) hkf
    ((ownTable L).length - 1) hi
  have harg : headKey (ownTable L) + (((ownTable L).length - 1 : Nat) : Int)
      = headKey (ownTable L) + ((ownTable L).length : Int) - 1 := by omega
  rw [harg, List.getElem?_eq_getElem hi] at hsel
  have hs : selectValue (ownTable L)
      (headKey (ownTable L) + ((ownTable L).length : Int) - 1)
      = some ((ownTable L)[(ownTable L).length - 1]).2 := by
    rw [hsel]
    rfl
  have hnlt : ¬ ((ownTable L).length < 1) := by omega
  constructor
  · simp only [listPopLast, if_neg hnlt, hmax, hs]
    rfl
  · simp only [listPopLast, if_neg hnlt, hmax, hs]
    show listLen { L with
        db := dbUpdate L.db L.tableName
                (tableDelete (ownTable L)
                  (headKey (ownTable L) + ((ownTable L).length : Int) - 1)),
        engine := record_write (db_commit L.engine) } = listLen L - 1
    unfold listLen
    rw [ownTable_set L _ _ hwf.1, keysFrom_delete_max (ownTable L) (headKey (ownTable L)) hkf,
        List.length_dropLast]

lemma listPopFirst_spec {α : Type} (L : SqliteList α) (hwf : WFlist L)
    (h0 : ownTable L ≠ []) :
    (listPopFirst L).1.isOk = true ∧ listLen (listPopFirst L).2 = listLen L - 1 := by
  have hkf : keysFrom (headKey (ownTable L)) (ownTable L) = true := hwf.2
  have hmin := keysFrom_sqlMin (ownTable L) (headKey (ownTable L)) hkf h0
  have hlen1 : 1 ≤ (ownTable L).length := List.length_pos.mpr h0
  have hi : 0 < (ownTable L).length := by omega
  have hsel := keysFrom_selectValue (ownTable L) (headKey (ownTable L)) hkf 0 hi
  have harg : headKey (ownTable L) + ((0 : Nat) : Int) = headKey (ownTable L) := by omega
  rw [harg, List.getElem?_eq_getElem hi] at hsel
  have hs : selectValue (ownTable L) (headKey (ownTable L))
      = some ((ownTable L)[0]).2 := by
    rw [hsel]
    rfl
  have hnlt : ¬ ((ownTable L).length < 1) := by omega
  constructor
  · simp only [listPopFirst, if_neg hnlt, hmin, hs]
    rfl
  · simp only [listPopFirst, if_neg hnlt, hmin, hs]
    show listLen { L with
        db := dbUpdate L.db L.tableName
                (tableDelete (ownTable L) (headKey (ownTable L))),
        engine := record_write (db_commit L.engine) } = listLen L - 1
    unfold listLen
    rw [ownTable_set L _ _ hwf.1, keysFrom_delete_min (ownTable L) (headKey (ownTable L)) hkf,
        List.length_tail]

lemma listSet_engine {α : Type} (L : SqliteList α) (i : Int) (w : α) :
    (listSet L i w).1 = .ok () → (listSet L i w).2.engine = record_write L.engine := by
  simp only [listSet]
  repeat' split
  all_goals intro h
  all_goals first
    | exact Except.noConfusion h
    | rfl

lemma listPopLast_engine {α : Type} (L : SqliteList α) :
    (listPopLast L).1.isOk = true →
    (listPopLast L).2.engine = record_write (db_commit L.engine) := by
  simp only [listPopLast]
  repeat' split
  all_goals intro h
  all_goals first
    | exact Bool.noConfusion h
    | rfl

lemma listPopFirst_engine {α : Type} (L : SqliteList α) :
    (listPopFirst L).1.isOk = true →
    (listPopFirst L).2.engine = record_write (db_commit L.engine) := by
  simp only [listPopFirst]
  repeat' split
  all_goals intro h
  all_goals first
    | exact Bool.noConfusion h
    | rfl

lemma dictPopitem_engine {α : Type} (d : SqliteDict α) :
    (dictPopitem d).1.isOk = true → (dictPopitem d).2.engine = record_write d.engine := by
  simp only [dictPopitem]
  repeat' split
  all_goals intro h
  all_goals first
    | exact Bool.noConfusion h
    | rfl

lemma setRemove_engine {α : Type} (s : SqliteSet α) (x : α) :
    (setRemove s x).1 = .ok () → (setRemove s x).2.engine = record_write s.engine := by
  simp only [setRemove]
  repeat' split
  all_goals intro h
  all_goals first
    | exact Except.noConfusion h
    | rfl

lemma setPop_engine {α : Type} (s : SqliteSet α) :
    (setPop s).1.isOk = true → (setPop s).2.engine = record_write s.engine := by
  simp only [setPop]
  repeat' split
  all_goals intro h
  all_goals first
    | exact Bool.noConfusion h
    | rfl

/-- C1: the claim says `set(i, v)` overwrites element `i` in place for every
logical container name.  The code's REPLACE statement hard-codes the target
table `list` (only its MIN subquery is formatted with the adapter's table
name), so on a container constructed with a name — here `foo`, table
`foo_list_table`, holding one element — `set(0, "b")` fails with
`sqlite3.OperationalError: no such table: list` and the element is
unchanged, while on a default-named container the overwrite works as
claimed (value replaced, length and the other element untouched). -/
theorem c1_setitem_hardcoded_table :
    listSet LC1 0 "b" = (.error .noSuchTable, LC1) ∧
    listGet LC1 0 = .ok "a" ∧
    (listSet LCdef 0 "z").1 = .ok () ∧
    ownTable (listSet LCdef 0 "z").2 = [(1, "z"), (2, "b")] ∧
    listGet (listSet LCdef 0 "z").2 0 = .ok "z" ∧
    listGet (listSet LCdef 0 "z").2 1 = .ok "b" ∧
    listLen (listSet LCdef 0 "z").2 = 2 := by
  refine ⟨?_, ?_, ?_, ?_, ?_, ?_, ?_⟩ <;> rfl

/-- C2: on an empty sequence, `pop_last` and `pop_first` do fail and leave
the state unchanged, but the exception is a `NameError` (the empty branch
evaluates the undefined name `cusror`), not the claimed `EmptyContainer`. -/
theorem c2_pop_empty_namerror :
    listPopLast L0 = (.error .nameError, L0) ∧
    listPopFirst L0 = (.error .nameError, L0) ∧
    Err.nameError ≠ Err.emptyContainer :=
  ⟨rfl, rfl, by decide⟩

/-- C3 counterexample: on an empty map the key `x` is absent, yet
`delete("x")` succeeds (the DELETE statement matches no row and nothing is
raised) and leaves the table unchanged — refuting the claim that deleting
an absent key fails with `KeyNotFound`. -/
theorem c3_counterexample :
    dictLookup dC.table (dC.coder "x") = none ∧
    (dictDelete dC "x").1 = .ok () ∧
    (dictDelete dC "x").2.table = dC.table :=
  ⟨rfl, rfl, rfl⟩

/-- C3 as amended: `delete(k)` always succeeds; afterwards the encoded key
is absent, and the binding of every other key is unchanged (so a delete of
an absent key is a silent no-op and a delete of a present key removes
exactly that entry). -/
theorem c3_delete_amended {α : Type} (d : SqliteDict α) (k : α) :
    (dictDelete d k).1 = .ok () ∧
    dictLookup (dictDelete d k).2.table (d.coder k) = none ∧
    (∀ k2, k2 ≠ d.coder k →
      dictLookup (dictDelete d k).2.table k2 = dictLookup d.table k2) :=
  ⟨rfl, dictLookup_filter_self _ _, fun _ h => dictLookup_filter_ne _ _ _ h⟩

/-- Witness for the amended C3 at a concrete one-entry map. -/
theorem c3_delete_amended_witness :
    (dictDelete dC1 "k").1 = .ok () ∧
    dictLookup (dictDelete dC1 "k").2.table (dC1.coder "k") = none ∧
    dictLookup (dictDelete dC1 "k").2.table "other" = dictLookup dC1.table "other" :=
  ⟨(c3_delete_amended dC1 "k").1, (c3_delete_amended dC1 "k").2.1,
   (c3_delete_amended dC1 "k").2.2 "other" (by decide)⟩

/-- C4 counterexample: `SqliteSet.clear` on a concrete non-empty set is a
mutation (the table becomes empty) yet leaves the engine bookkeeping
untouched, while one `record_write` invocation would have changed it — so
clear does not invoke the commit-batching hook exactly once per mutation. -/
theorem c4_counterexample :
    sC.table ≠ [] ∧ (setClear sC).table = [] ∧
    (setClear sC).engine = sC.engine ∧ record_write sC.engine ≠ sC.engine :=
  ⟨by decide, rfl, rfl, by decide⟩

/-- C4 as amended: every mutating operation of the three adapters invokes
`record_write` exactly once per successful mutation — `popitem` through its
nested delete, the sequence pops after their direct in-transaction commit —
except `clear`, which on all three adapters never invokes it. -/
theorem c4_record_write_per_mutation {α : Type} (d : SqliteDict α) (k v : α)
    (L : SqliteList α) (i : Int) (w : α) (s : SqliteSet α) (x : α) :
    (dictSetitem d k v).engine = record_write d.engine ∧
    (dictDelete d k).2.engine = record_write d.engine ∧
    ((dictPopitem d).1.isOk = true → (dictPopitem d).2.engine = record_write d.engine) ∧
    ((listSet L i w).1 = .ok () → (listSet L i w).2.engine = record_write L.engine) ∧
    (listAppend L w).engine = record_write L.engine ∧
    (listPrepend L w).engine = record_write L.engine ∧
    ((listPopLast L).1.isOk = true →
      (listPopLast L).2.engine = record_write (db_commit L.engine)) ∧
    ((listPopFirst L).1.isOk = true →
      (listPopFirst L).2.engine = record_write (db_commit L.engine)) ∧
    (setAdd s x).engine = record_write s.engine ∧
    ((setRemove s x).1 = .ok () → (setRemove s x).2.engine = record_write s.engine) ∧
    (setDiscard s x).engine = record_write s.engine ∧
    ((setPop s).1.isOk = true → (setPop s).2.engine = record_write s.engine) ∧
    (listClear L).engine = L.engine ∧
    (dictClear d).engine = d.engine ∧
    (setClear s).engine = s.engine :=
  ⟨rfl, rfl, dictPopitem_engine d, listSet_engine L i w, rfl, rfl,
   listPopLast_engine L, listPopFirst_engine L, rfl, setRemove_engine s x,
   rfl, setPop_engine s, rfl, rfl, rfl⟩

/-- Witness for the amended C4 at concrete containers, with the success
hypothesis of the conditional `pop` clause discharged by computation. -/
theorem c4_record_write_witness :
    (setAdd sC "b").engine = record_write sC.engine ∧
    (setPop sC).2.engine = record_write sC.engine ∧
    (listClear LCdef).engine = LCdef.engine :=
  have h := c4_record_write_per_mutation dC1 "k" "v" LCdef 0 "z" sC "b"
  ⟨h.2.2.2.2.2.2.2.2.1,
   h.2.2.2.2.2.2.2.2.2.2.2.1 (by decide),
   h.2.2.2.2.2.2.2.2.2.2.2.2.1⟩

/-- C5: for every well-formed sequence container (the empty one included),
`append(v)` grows the length by exactly one and `get(length-1)` then
returns the decode of the encoding of `v`; `prepend(v)` grows the length by
exactly one and `get(0)` then returns the same; and on a non-empty
container both pops succeed and shrink the length by exactly one. -/
theorem c5_append_prepend_pop_laws {α : Type} (L : SqliteList α) (v : α)
    (hwf : WFlist L) :
    listLen (listAppend L v) = listLen L + 1 ∧
    listGet (listAppend L v) ((listLen (listAppend L v) : Int) - 1)
      = .ok (L.decoder (L.coder v)) ∧
    listLen (listPrepend L v) = listLen L + 1 ∧
    listGet (listPrepend L v) 0 = .ok (L.decoder (L.coder v)) ∧
    (ownTable L ≠ [] →
      (listPopLast L).1.isOk = true ∧ listLen (listPopLast L).2 = listLen L - 1 ∧
      (listPopFirst L).1.isOk = true ∧ listLen (listPopFirst L).2 = listLen L - 1) := by
  have htab := listAppend_table L v hwf
  have hptab := listPrepend_table L v hwf
  have hlenA : listLen (listAppend L v) = listLen L + 1 := by
    unfold listLen
    rw [htab]
    simp
  have hlenP : listLen (listPrepend L v) = listLen L + 1 := by
    unfold listLen
    rw [hptab]
    simp
  refine ⟨hlenA, ?_, hlenP, ?_, ?_⟩
  · have hkey : ((listLen (listAppend L v) : Int)) - 1 = ((listLen L : Nat) : Int) := by
      rw [hlenA]
      push_cast
      ring
    rw [hkey]
    by_cases h0 : ownTable L = []
    · have ht' : ownTable (listAppend L v) = [(1, L.coder v)] := by
        rw [htab, h0]
        rfl
      have hlen0 : listLen L = 0 := by
        unfold listLen
        rw [h0]
        rfl
      have := listGet_nat (listAppend L v) 1 0 (L.coder v)
        (by rw [ht']; rfl)
        (by rw [hlenA, hlen0]; omega)
        (by rw [ht']; rfl)
      rw [hlen0]
      exact this
    · have hK := appendKey_eq (ownTable L) (headKey (ownTable L)) hwf.2 h0
      have hkf' : keysFrom (headKey (ownTable L)) (ownTable (listAppend L v)) = true := by
        rw [htab]
        exact keysFrom_snoc _ _ _ _ hwf.2 hK
      have hs : (ownTable (listAppend L v))[listLen L]?.map Prod.snd = some (L.coder v) := by
        rw [htab, show (listLen L) = (ownTable L).length from rfl,
            List.getElem?_concat_length]
        rfl
      exact listGet_nat (listAppend L v) (headKey (ownTable L)) (listLen L) (L.coder v)
        hkf' (by rw [hlenA]; omega) hs
  · by_cases h0 : ownTable L = []
    · have ht' : ownTable (listPrepend L v) = [(1, L.coder v)] := by
        rw [hptab, h0]
        rfl
      have := listGet_nat (listPrepend L v) 1 0 (L.coder v)
        (by rw [ht']; rfl)
        (by rw [hlenP]; omega)
        (by rw [ht']; rfl)
      exact_mod_cast this
    · have hpk := prependKey_eq (ownTable L) (headKey (ownTable L)) hwf.2 h0
      have hkf' : keysFrom (headKey (ownTable L) - 1) (ownTable (listPrepend L v)) = true := by
        rw [hptab, hpk]
        exact keysFrom_cons_pred _ _ _ hwf.2
      have hs : (ownTable (listPrepend L v))[0]?.map Prod.snd = some (L.coder v) := by
        rw [hptab]
        simp
      have := listGet_nat (listPrepend L v) (headKey (ownTable L) - 1) 0 (L.coder v)
        hkf' (by rw [hlenP]; omega) hs
      exact_mod_cast this
  · intro h0
    obtain ⟨a, b⟩ := listPopLast_spec L hwf h0
    obtain ⟨c, d⟩ := listPopFirst_spec L hwf h0
    exact ⟨a, b, c, d⟩

/-- Witness for C5 at the concrete two-element default-named sequence. -/
theorem c5_witness :
    listLen (listAppend LCdef "z") = listLen LCdef + 1 ∧
    listGet (listAppend LCdef "z") ((listLen (listAppend LCdef "z") : Int) - 1)
      = .ok (LCdef.decoder (LCdef.coder "z")) ∧
    listLen (listPrepend LCdef "z") = listLen LCdef + 1 ∧
    listGet (listPrepend LCdef "z") 0 = .ok (LCdef.decoder (LCdef.coder "z")) ∧
    (listPopLast LCdef).1.isOk = true ∧ listLen (listPopLast LCdef).2 = listLen LCdef - 1 :=
  have h := c5_append_prepend_pop_laws LCdef "z" ⟨rfl, rfl⟩
  ⟨h.1, h.2.1, h.2.2.1, h.2.2.2.1,
   (h.2.2.2.2 (by decide)).1, (h.2.2.2.2 (by decide)).2.1⟩

/-- C6: for every sequence container and every `0 <= i < length`,
`get(-1 - i)` returns exactly what `get(length - 1 - i)` returns; and a
negative index `j` whose resolution `length + j` is still out of range
fails with `IndexOutOfRange`. -/
theorem c6_negative_indexing {α : Type} (L : SqliteList α) (i : Nat)
    (h : i < listLen L) :
    listGet L (-1 - (i : Int)) = listGet L ((listLen L : Int) - 1 - (i : Int)) ∧
    (∀ j : Int, j < 0 →
      ((listLen L : Int) + j < 0 ∨ (listLen L : Int) + j ≥ (listLen L : Int)) →
      listGet L j = .error .indexOutOfRange) := by
  constructor
  · simp only [listGet]
    split_ifs <;> first | rfl | omega | (congr 1; omega)
  · intro j hj hout
    simp only [listGet]
    split_ifs <;> first | rfl | omega

/-- Witness for C6 at the concrete two-element sequence, index 0: `get(-1)`
agrees with `get(1)`, and `get(-3)` resolves below zero and fails. -/
theorem c6_witness :
    listGet LCdef (-1 - ((0 : Nat) : Int)) = listGet LCdef ((listLen LCdef : Int) - 1 - ((0 : Nat) : Int)) ∧
    listGet LCdef (-3) = .error .indexOutOfRange :=
  ⟨(c6_negative_indexing LCdef 0 (by decide)).1,
   (c6_negative_indexing LCdef 0 (by decide)).2 (-3) (by decide) (by decide)⟩

/-- C7: on the sequence holding `[10,20,30,40,50]`, the slice
`(start 1, stop 4, step 1)` yields exactly the decoded values
`20, 30, 40`, in order; by the definition of `listSliceGet` each element is
produced by an independent `listGet` point lookup. -/
theorem c7_slice_scenario_e :
    listSliceGet L5 1 4 1 = [.ok 20, .ok 30, .ok 40] := by
  rfl

/-- C8: `discard(x)` never raises (it is total by its embedding — the
DELETE statement matches zero or one row and always succeeds), afterwards
`x` is not a member, every element encoded differently from `x` keeps its
membership, and a second `discard(x)` leaves the stored table exactly as
the first left it. -/
theorem c8_discard_idempotent {α : Type} (s : SqliteSet α) (x : α) :
    setMem (setDiscard s x) x = false ∧
    (∀ y : α, s.coder y ≠ s.coder x → setMem (setDiscard s x) y = setMem s y) ∧
    (setDiscard (setDiscard s x) x).table = (setDiscard s x).table := by
  refine ⟨?_, ?_, ?_⟩
  · simp [setMem, setDiscard]
  · intro y hy
    simpa [setMem, setDiscard] using
      contains_filter_ne_of_ne s.table (s.coder x) (s.coder y) hy
  · simp [setDiscard, List.filter_filter]

/-- Witness for C8 at a concrete one-member set. -/
theorem c8_discard_witness :
    setMem (setDiscard sC "a") "a" = false ∧
    setMem (setDiscard sC "b") "a" = setMem sC "a" :=
  ⟨(c8_discard_idempotent sC "a").1,
   (c8_discard_idempotent sC "b").2.1 "a" (by decide)⟩

/-- C9: when the encoded key is absent, `pop(key, default)` propagates the
`KeyError` raised by the initial `self[key]` lookup before any mutation, so
the map is unchanged and the accepted `default` argument is never returned. -/
theorem c9_pop_absent_raises {α : Type} (d : SqliteDict α) (k dflt : α)
    (h : dictLookup d.table (d.coder k) = none) :
    dictPop d k dflt = (.error .keyNotFound, d) := by
  simp [dictPop, dictGetitem, h]

/-- Witness for C9: popping an absent key from the empty map, with a
supplied default, raises and leaves the map unchanged. -/
theorem c9_pop_absent_witness :
    dictPop dC "x" "z" = (.error .keyNotFound, dC) :=
  c9_pop_absent_raises dC "x" "z" rfl

/-- C10: under the hypothesis that the coder/decoder pair round-trips on
every stored text (and the primary-key uniqueness invariant), `pop` on an
empty set raises `EmptyContainer` and changes nothing, and on a non-empty
set returns the decoded first row — a member — which is no longer a member
afterwards, with the length decreasing by exactly one. -/
theorem c10_set_pop {α : Type} (s : SqliteSet α)
    (hrt : ∀ k ∈ s.table, s.coder (s.decoder k) = k)
    (hnd : s.table.Nodup) :
    (s.table = [] → setPop s = (.error .emptyContainer, s)) ∧
    (∀ k ts, s.table = k :: ts →
      (setPop s).1 = .ok (s.decoder k) ∧
      setMem s (s.decoder k) = true ∧
      setMem (setPop s).2 (s.decoder k) = false ∧
      (setPop s).2.table.length + 1 = s.table.length) := by
  constructor
  · intro h
    simp [setPop, h]
  · intro k ts hts
    have hk : s.coder (s.decoder k) = k := hrt k (by rw [hts]; exact List.mem_cons_self k ts)
    have hnd' : (k :: ts).Nodup := hts ▸ hnd
    have hknotmem : k ∉ ts := (List.nodup_cons.mp hnd').1
    have htab : (setPop s).2.table = ts := by
      simp [setPop, hts, hk, List.filter_cons, filter_ne_of_not_mem ts k hknotmem]
    refine ⟨?_, ?_, ?_, ?_⟩
    · simp [setPop, hts]
    · simp [setMem, hts, hk]
    · have hcod : (setPop s).2.coder = s.coder := by simp [setPop, hts]
      simpa [setMem, htab, hcod, hk] using hknotmem
    · rw [htab, hts]
      simp

/-- Witness for C10 at a concrete one-member set (identity coder, so the
round-trip hypothesis holds definitionally). -/
theorem c10_set_pop_witness :
    (sC.table = [] → setPop sC = (.error .emptyContainer, sC)) ∧
    (∀ k ts, sC.table = k :: ts →
      (setPop sC).1 = .ok (sC.decoder k) ∧
      setMem sC (sC.decoder k) = true ∧
      setMem (setPop sC).2 (sC.decoder k) = false ∧
      (setPop sC).2.table.length + 1 = sC.table.length) :=
  c10_set_pop sC (fun k _ => rfl) (by decide)
